import Mathlib

/-! # DoubleTick customer table: data pipeline

A shallow embedding of the client-side pipeline of the customer table
(`src/App.jsx`, `src/utils/generateCustomers.js`): dataset generation,
search filtering, sorting, the visible-row window and its growth, and the
sort toggle.

JavaScript strings are lists of characters.  Host functions whose behaviour
is fixed by the engine and not by this repository (`String.prototype.toLowerCase`,
`Date` parsing, `localeCompare`) are fields of a `Platform`; the general
theorems hold for every platform, and `refPlatform` is a small concrete
platform on which the definitions evaluate.
-/

namespace DoubleTick

/-! ## Strings -/

/-- A JavaScript string, as its sequence of characters. -/
abbrev JsString := List Char

/-- The characters removed by `String.prototype.trim`: ECMAScript WhiteSpace
(TAB, VT, FF, SP, NBSP, ZWNBSP and the Unicode space separators) and
LineTerminator (LF, CR, LS, PS). -/
def isWhiteSpace (c : Char) : Bool :=
  let n := c.toNat
  n == 0x09 || n == 0x0A || n == 0x0B || n == 0x0C || n == 0x0D || n == 0x20 ||
  n == 0xA0 || n == 0x1680 || (0x2000 ≤ n && n ≤ 0x200A) || n == 0x2028 ||
  n == 0x2029 || n == 0x202F || n == 0x205F || n == 0x3000 || n == 0xFEFF

/-- Model of `String.prototype.trim`: white space removed at both ends. -/
def trim (s : JsString) : JsString :=
  ((s.dropWhile isWhiteSpace).reverse.dropWhile isWhiteSpace).reverse

/-- Model of `String.prototype.includes`: `needle` occurs in `hay` as a
contiguous block. -/
def includes : JsString → JsString → Bool
  | [], needle => needle.isEmpty
  | c :: hay, needle => needle.isPrefixOf (c :: hay) || includes hay needle

/-- Host functions of the JavaScript engine used by the pipeline. -/
structure Platform where
  /-- The host `String.prototype.toLowerCase`. -/
  toLowerCase : JsString → JsString
  /-- Lower-casing maps the empty string, and only it, to the empty string. -/
  toLowerCase_eq_nil : ∀ s, toLowerCase s = [] ↔ s = []
  /-- The time value of `new Date(text)` in milliseconds; `none` is the
  `NaN` time value of an invalid date. -/
  dateParse : JsString → Option Int
  /-- The host `a.localeCompare(b, undefined, { sensitivity: 'base' })`. -/
  localeCompare : JsString → JsString → Int
  /-- The host `String(date)` of a date with the given time value. -/
  dateToString : Option Int → JsString

/-! ## Data model -/

/-- A customer record, as built by `generateCustomers`. -/
structure Customer where
  id : Nat
  name : JsString
  phone : JsString
  email : JsString
  score : Int
  lastMessageAt : JsString
  addedBy : JsString
  avatar : JsString
deriving DecidableEq, Repr

/-- The two values of `sortConfig.direction`. -/
inductive Direction where
  | asc
  | desc
deriving DecidableEq, Repr

/-- The `sortConfig` state of `App`. -/
structure SortConfig where
  key : JsString
  direction : Direction
deriving DecidableEq, Repr

/-- The JavaScript values the sort comparator handles. -/
inductive JsValue where
  | undefined
  | number (n : Int)
  | string (s : JsString)
  | date (t : Option Int)
deriving DecidableEq, Repr

/-- Property access `c[key]` on a customer record. -/
def Customer.get (c : Customer) (key : JsString) : JsValue :=
  if key = "id".toList then .number c.id
  else if key = "name".toList then .string c.name
  else if key = "phone".toList then .string c.phone
  else if key = "email".toList then .string c.email
  else if key = "score".toList then .number c.score
  else if key = "lastMessageAt".toList then .string c.lastMessageAt
  else if key = "addedBy".toList then .string c.addedBy
  else if key = "avatar".toList then .string c.avatar
  else .undefined

/-! ## Filter stage (`filteredCustomers`, App.jsx 36-46) -/

/-- The filter stage of `App`: `customers` is the dataset and `searchTerm`
the committed search text. -/
def filteredCustomers (P : Platform) (customers : List Customer) (searchTerm : JsString) :
    List Customer :=
  let query := P.toLowerCase (trim searchTerm)
  if query = [] then customers
  else customers.filter fun c =>
    includes (P.toLowerCase c.name) query ||
    includes (P.toLowerCase c.email) query ||
    includes (P.toLowerCase c.phone) query

/-! ## Sort stage (`sortedCustomers`, App.jsx 49-72) -/

/-- Model of `new Date(v)`: a date whose time value is parsed from a string,
taken from a number inside the representable range, copied from a date, and
`NaN` otherwise. -/
def newDate (P : Platform) : JsValue → JsValue
  | .string s => .date (P.dateParse s)
  | .number n => .date (if -8640000000000000 ≤ n ∧ n ≤ 8640000000000000 then some n else none)
  | .date t => .date t
  | .undefined => .date none

/-- Model of `String(v)`. -/
def jsString (P : Platform) : JsValue → JsString
  | .undefined => "undefined".toList
  | .number n => (toString n).toList
  | .string s => s
  | .date t => P.dateToString t

/-- Subtraction of two time values; `NaN` (`none`) is absorbing. -/
def timeSub : Option Int → Option Int → Option Int
  | some x, some y => some (x - y)
  | _, _ => none

/-- The comparator passed to `arr.sort` in `sortedCustomers`; `none` is a
`NaN` result. -/
def compareFn (P : Platform) (cfg : SortConfig) (a b : Customer) : Option Int :=
  let aVal := if cfg.key = "lastMessageAt".toList then newDate P (a.get cfg.key) else a.get cfg.key
  let bVal := if cfg.key = "lastMessageAt".toList then newDate P (b.get cfg.key) else b.get cfg.key
  match aVal, bVal with
  | .number x, .number y => some (if cfg.direction = .asc then x - y else y - x)
  | .date s, .date t => if cfg.direction = .asc then timeSub s t else timeSub t s
  | _, _ =>
    let comp := P.localeCompare (jsString P aVal) (jsString P bVal)
    some (if cfg.direction = .asc then comp else -comp)

/-- Model of `Array.prototype.sort(comparefn)`: a stable sort that keeps `a`
before `b` when the comparator's result is not positive; a `NaN` result counts
as `+0`, as in ECMAScript's SortCompare. -/
def arraySort {α : Type} (comparefn : α → α → Option Int) (arr : List α) : List α :=
  arr.insertionSort fun a b => (comparefn a b).getD 0 ≤ 0

/-- The sort stage of `App`: a sorted copy of the filtered records. -/
def sortedCustomers (P : Platform) (cfg : SortConfig) (filtered : List Customer) :
    List Customer :=
  arraySort (compareFn P cfg) filtered

/-! ## Window (`visibleCustomers`, `loadMore`, App.jsx 75-105) -/

/-- Model of `arr.slice(0, end)` for an integer `end`: a negative `end`
counts from the end of the array. -/
def slice0 {α : Type} (arr : List α) (e : Int) : List α :=
  if e < 0 then arr.take ((arr.length : Int) + e).toNat else arr.take e.toNat

/-- The rows rendered: `sortedCustomers.slice(0, visible)`. -/
def visibleCustomers (sorted : List Customer) (visible : Int) : List Customer :=
  slice0 sorted visible

/-- The state update of `loadMore`: `Math.min(prev + 30, sortedCustomers.length)`. -/
def loadMore (sortedLength : Nat) (prev : Int) : Int :=
  min (prev + 30) sortedLength

/-! ## Sort toggle (`handleSort`, App.jsx 108-118) -/

/-- The state update of `handleSort(columnKey)`. -/
def handleSort (columnKey : JsString) (prev : SortConfig) : SortConfig :=
  if prev.key = columnKey then
    { key := columnKey, direction := if prev.direction = .asc then .desc else .asc }
  else
    { key := columnKey, direction := .asc }

/-! ## Auto-fill effect (App.jsx 90-105) -/

/-- One run of the auto-fill effect with its timer callback `checkAndLoad`:
`docShort` is the measured layout test `docHeight <= viewportHeight`.  The
result is the new `visible` when `loadMore` is called and `none` when the
effect does nothing. -/
def checkAndLoad (docShort : Bool) (sorted : List Customer) (visible : Int) : Option Int :=
  if (visibleCustomers sorted visible).length < sorted.length then
    if docShort then some (loadMore sorted.length visible) else none
  else none

/-- The auto-fill loop: the effect runs, and runs again after a `loadMore`
that changed the number of rendered rows, which is the dependency of the
effect that `loadMore` can change.  `layout n` is the layout test after `n`
calls of `loadMore`, and `fuel` the number of effect runs allowed.  The
result is the final `visible` and the number of `loadMore` calls, `none`
when the fuel runs out. -/
def autoFill (layout : Nat → Bool) (sorted : List Customer) : Nat → Int → Nat → Option (Int × Nat)
  | 0, _, _ => none
  | fuel + 1, visible, grows =>
    match checkAndLoad (layout grows) sorted visible with
    | none => some (visible, grows)
    | some next =>
      if (visibleCustomers sorted next).length = (visibleCustomers sorted visible).length then
        some (next, grows + 1)
      else autoFill layout sorted fuel next (grows + 1)

/-! ## Session state (App.jsx 17-33, 80-83, 108-118) -/

/-- The state of `App` that the pipeline depends on. -/
structure AppState where
  searchInput : JsString
  searchTerm : JsString
  visible : Int
  sortConfig : SortConfig
deriving DecidableEq, Repr

/-- The state after the first render. -/
def AppState.init : AppState :=
  { searchInput := [], searchTerm := [], visible := 30,
    sortConfig := { key := "name".toList, direction := .asc } }

/-- The events that change the state. -/
inductive Event where
  /-- The user edits the search box: `setSearchInput(text)`. -/
  | input (text : JsString)
  /-- The 250ms debounce timer fires: the search text is committed. -/
  | commit
  /-- A scroll notification or the auto-fill effect calls `loadMore`. -/
  | grow
  /-- A header click: `handleSort(columnKey)`. -/
  | toggleSort (columnKey : JsString)
deriving DecidableEq, Repr

/-- The number of records matched by the committed search text, which is
`sortedCustomers.length`. -/
def matchedCount (P : Platform) (customers : List Customer) (s : AppState) : Nat :=
  (sortedCustomers P s.sortConfig (filteredCustomers P customers s.searchTerm)).length

/-- The state transition of one event. -/
def step (P : Platform) (customers : List Customer) (s : AppState) : Event → AppState
  | .input text => { s with searchInput := text }
  | .commit => { s with searchTerm := s.searchInput, visible := 30 }
  | .grow => { s with visible := loadMore (matchedCount P customers s) s.visible }
  | .toggleSort columnKey => { s with sortConfig := handleSort columnKey s.sortConfig }

/-- The state after a sequence of events, from the initial state. -/
def run (P : Platform) (customers : List Customer) (events : List Event) : AppState :=
  events.foldl (step P customers) AppState.init

/-! ## Dataset generator (generateCustomers.js 13-28) -/

/-- The values drawn from the faker library for the record with a given id. -/
structure Faker where
  fullName : Nat → JsString
  phoneNumber : Nat → JsString
  email : Nat → JsString
  scoreInt : Nat → Int
  recentISO : Nat → JsString
  firstName : Nat → JsString

/-- The errors a call can throw. -/
inductive JsError where
  | rangeError
deriving DecidableEq, Repr

/-- Model of `new Array(count)` for an integer `count`: an array of `count`
empty slots, and a `RangeError` when `count` is not an array length
(negative, or above `2^32 - 1`). -/
def newArray (count : Int) : Except JsError (List (Option Customer)) :=
  if 0 ≤ count ∧ count < 4294967296 then .ok (List.replicate count.toNat none)
  else .error .rangeError

/-- The avatar URI of the record `id`. -/
def avatarOf (id : Nat) : JsString :=
  "https://i.pravatar.cc/150?img=".toList ++ (toString (id % 70)).toList

/-- The record built by one iteration of the loop. -/
def mkCustomer (faker : Faker) (id : Nat) : Customer :=
  { id := id, name := faker.fullName id, phone := faker.phoneNumber id,
    email := faker.email id, score := faker.scoreInt id,
    lastMessageAt := faker.recentISO id, addedBy := faker.firstName id,
    avatar := avatarOf id }

/-- Model of `generateCustomers(count)` for an integer `count`: the array is
allocated, then the loop `for (id = 1; id <= count; id++)` stores the record
`id` in slot `id - 1`. -/
def generateCustomers (faker : Faker) (count : Int) : Except JsError (List (Option Customer)) :=
  match newArray count with
  | .error e => .error e
  | .ok customers =>
    .ok ((List.range' 1 count.toNat).foldl
      (fun arr id => arr.set (id - 1) (some (mkCustomer faker id))) customers)

/-! ## A reference platform -/

/-- Decimal value of a non-empty string of ASCII digits. -/
def parseDigits (s : JsString) : Option Nat :=
  if s ≠ [] ∧ s.all Char.isDigit = true then
    some (s.foldl (fun n c => 10 * n + (c.toNat - 48)) 0)
  else none

/-- Days from 1970-01-01 to the civil date `y-m-d` (proleptic Gregorian). -/
def daysFromCivil (y m d : Int) : Int :=
  let y1 := if m ≤ 2 then y - 1 else y
  let era := y1.fdiv 400
  let yoe := y1 - era * 400
  let mp := (m + 9) % 12
  let doy := (153 * mp + 2) / 5 + d - 1
  let doe := yoe * 365 + yoe / 4 - yoe / 100 + doy
  era * 146097 + doe - 719468

/-- Splits a string at every `-`. -/
def splitDash : JsString → List JsString
  | [] => [[]]
  | c :: s =>
    match splitDash s with
    | [] => [[c]]
    | w :: ws => if c = '-' then [] :: w :: ws else (c :: w) :: ws

/-- A date parser for texts of the form `Y-M-D`: midnight UTC of that day. -/
def refDateParse (s : JsString) : Option Int :=
  match (splitDash s).map parseDigits with
  | [some y, some m, some d] =>
    if 1 ≤ m ∧ m ≤ 12 ∧ 1 ≤ d ∧ d ≤ 31 then some (daysFromCivil y m d * 86400000) else none
  | _ => none

/-- Lexicographic three-way comparison of two strings by code point. -/
def lexCompare : JsString → JsString → Int
  | [], [] => 0
  | [], _ :: _ => -1
  | _ :: _, [] => 1
  | a :: s, b :: t => if a.toNat < b.toNat then -1 else if b.toNat < a.toNat then 1 else lexCompare s t

/-- A concrete platform: ASCII lower-casing, `Y-M-D` dates, and comparison of
the lower-cased strings by code point. -/
def refPlatform : Platform where
  toLowerCase := fun s => s.map Char.toLower
  toLowerCase_eq_nil := fun _ => List.map_eq_nil_iff
  dateParse := refDateParse
  localeCompare := fun a b => lexCompare (a.map Char.toLower) (b.map Char.toLower)
  dateToString := fun _ => "Invalid Date".toList

/-- A faker that returns fixed values. -/
def refFaker : Faker where
  fullName := fun _ => "Ada Lovelace".toList
  phoneNumber := fun _ => "555-0100".toList
  email := fun _ => "ada@example.com".toList
  scoreInt := fun id => (id % 101 : Nat)
  recentISO := fun _ => "2024-10-1".toList
  firstName := fun _ => "Ada".toList

/-! ## Sample data -/

/-- A record of a small dataset. -/
def adaRecord : Customer :=
  { id := 1, name := "Ada Lovelace".toList, phone := "555-0100".toList,
    email := "ada@example.com".toList, score := 71,
    lastMessageAt := "2024-10-1".toList, addedBy := "Grace".toList,
    avatar := avatarOf 1 }

/-- A second record. -/
def bobRecord : Customer :=
  { id := 2, name := "Bob Stone".toList, phone := "555-0199".toList,
    email := "bob@example.com".toList, score := 12,
    lastMessageAt := "2024-2-1".toList, addedBy := "Grace".toList,
    avatar := avatarOf 2 }

/-- A record with a given id and score. -/
def scoreRecord (n : Nat) : Customer :=
  { id := n, name := "Ada Lovelace".toList, phone := "555-0100".toList,
    email := "ada@example.com".toList, score := Int.ofNat n,
    lastMessageAt := "2024-10-1".toList, addedBy := "Grace".toList,
    avatar := avatarOf n }

/-- A dataset of 100 records with the scores 1..100. -/
def hundredRecords : List Customer :=
  (List.range' 1 100).map scoreRecord

/-- A dataset of 10 records. -/
def tenRecords : List Customer :=
  (List.range' 1 10).map scoreRecord

/-! # Theorems -/

/-! ## Strings: facts -/

theorem includes_iff_infix (hay needle : JsString) :
    includes hay needle = true ↔ needle <:+: hay := by
  induction hay with
  | nil => cases needle <;> simp [includes]
  | cons c hay ih =>
    simp only [includes, Bool.or_eq_true, ih, List.isPrefixOf_iff_prefix]
    exact List.infix_cons_iff.symm

theorem trim_eq_nil_iff (s : JsString) :
    trim s = [] ↔ ∀ c ∈ s, isWhiteSpace c = true := by
  unfold trim
  rw [List.reverse_eq_nil_iff, List.dropWhile_eq_nil_iff]
  constructor
  · intro h
    by_contra hne
    have hd : s.dropWhile isWhiteSpace ≠ [] := by
      intro hnil
      exact hne (List.dropWhile_eq_nil_iff.mp hnil)
    have hhead := List.head_dropWhile_not isWhiteSpace s hd
    have hmem : (s.dropWhile isWhiteSpace).head hd ∈ (s.dropWhile isWhiteSpace).reverse :=
      List.mem_reverse.mpr (List.head_mem hd)
    rw [h _ hmem] at hhead
    exact absurd hhead (by simp)
  · intro h c hc
    have hnil : s.dropWhile isWhiteSpace = [] := List.dropWhile_eq_nil_iff.mpr h
    rw [hnil] at hc
    simp at hc

/-! ## Filter stage: theorems -/

/-- C3: when the committed search text is empty or consists only of white
space, the filter stage returns the dataset itself: the same records in the
same order, hence with the same length. -/
theorem filteredCustomers_blank (P : Platform) (customers : List Customer)
    (searchTerm : JsString) (hblank : ∀ c ∈ searchTerm, isWhiteSpace c = true) :
    filteredCustomers P customers searchTerm = customers ∧
    (filteredCustomers P customers searchTerm).length = customers.length := by
  have hq : P.toLowerCase (trim searchTerm) = [] :=
    (P.toLowerCase_eq_nil _).mpr ((trim_eq_nil_iff _).mpr hblank)
  have h : filteredCustomers P customers searchTerm = customers := by
    simp [filteredCustomers, hq]
  exact ⟨h, by rw [h]⟩

theorem filteredCustomers_blank_witness :
    (∀ c ∈ " \t ".toList, isWhiteSpace c = true) ∧
    (filteredCustomers refPlatform [adaRecord, bobRecord] " \t ".toList = [adaRecord, bobRecord] ∧
     (filteredCustomers refPlatform [adaRecord, bobRecord] " \t ".toList).length = 2) :=
  ⟨by decide, filteredCustomers_blank refPlatform [adaRecord, bobRecord] " \t ".toList (by decide)⟩

/-- C1 (as amended): when the committed search text has a character that is
not white space, the filter stage returns exactly the records of the dataset,
in their original order, for which the lower-cased TRIMMED search text occurs
as a substring of the lower-cased name, email or phone. -/
theorem filteredCustomers_query (P : Platform) (customers : List Customer)
    (searchTerm : JsString) (hquery : ∃ c ∈ searchTerm, isWhiteSpace c = false) :
    filteredCustomers P customers searchTerm =
      customers.filter (fun c => decide
        (P.toLowerCase (trim searchTerm) <:+: P.toLowerCase c.name ∨
         P.toLowerCase (trim searchTerm) <:+: P.toLowerCase c.email ∨
         P.toLowerCase (trim searchTerm) <:+: P.toLowerCase c.phone)) ∧
    List.Sublist (filteredCustomers P customers searchTerm) customers := by
  have hq : P.toLowerCase (trim searchTerm) ≠ [] := by
    intro hnil
    have hall := (trim_eq_nil_iff _).mp ((P.toLowerCase_eq_nil _).mp hnil)
    obtain ⟨c, hc, hw⟩ := hquery
    rw [hall c hc] at hw
    exact absurd hw (by simp)
  have h : filteredCustomers P customers searchTerm =
      customers.filter (fun c => decide
        (P.toLowerCase (trim searchTerm) <:+: P.toLowerCase c.name ∨
         P.toLowerCase (trim searchTerm) <:+: P.toLowerCase c.email ∨
         P.toLowerCase (trim searchTerm) <:+: P.toLowerCase c.phone)) := by
    simp only [filteredCustomers, hq, if_false]
    apply List.filter_congr
    intro c _
    rw [Bool.eq_iff_iff]
    simp only [Bool.or_eq_true, includes_iff_infix, decide_eq_true_eq, or_assoc]
  exact ⟨h, by rw [h]; exact List.filter_sublist _⟩

theorem filteredCustomers_query_witness :
    (∃ c ∈ " ADA ".toList, isWhiteSpace c = false) ∧
    filteredCustomers refPlatform [adaRecord, bobRecord] " ADA ".toList = [adaRecord] := by
  refine ⟨by decide, ?_⟩
  rw [(filteredCustomers_query refPlatform [adaRecord, bobRecord] " ADA ".toList (by decide)).1]
  decide

/-- C1 (as stated) fails: the search text `" ada"` has a leading blank, so
lower-cased it is a substring of no field of the record, yet the filter stage
returns the record, because it matches the trimmed text `"ada"`. -/
theorem filteredCustomers_untrimmed_counterexample :
    (∃ c ∈ " ada".toList, isWhiteSpace c = false) ∧
    filteredCustomers refPlatform [adaRecord] " ada".toList = [adaRecord] ∧
    ¬ (refPlatform.toLowerCase " ada".toList <:+: refPlatform.toLowerCase adaRecord.name) ∧
    ¬ (refPlatform.toLowerCase " ada".toList <:+: refPlatform.toLowerCase adaRecord.email) ∧
    ¬ (refPlatform.toLowerCase " ada".toList <:+: refPlatform.toLowerCase adaRecord.phone) := by
  decide

/-! ## Sort stage: facts about the sort model -/

theorem orderedInsert_congr {α : Type} {r s : α → α → Prop} [DecidableRel r] [DecidableRel s]
    (a : α) (l : List α) (h : ∀ b ∈ l, (r a b ↔ s a b)) :
    l.orderedInsert r a = l.orderedInsert s a := by
  induction l with
  | nil => rfl
  | cons b l ih =>
    have hb : r a b ↔ s a b := h b (List.mem_cons_self b l)
    have hl : ∀ c ∈ l, (r a c ↔ s a c) := fun c hc => h c (List.mem_cons_of_mem b hc)
    by_cases hr : r a b
    · have hs : s a b := hb.mp hr
      simp [List.orderedInsert, hr, hs]
    · have hs : ¬ s a b := fun x => hr (hb.mpr x)
      simp [List.orderedInsert, hr, hs, ih hl]

theorem insertionSort_congr {α : Type} {r s : α → α → Prop} [DecidableRel r] [DecidableRel s]
    (l : List α) (h : ∀ a ∈ l, ∀ b ∈ l, (r a b ↔ s a b)) :
    l.insertionSort r = l.insertionSort s := by
  induction l with
  | nil => rfl
  | cons a l ih =>
    have hl : ∀ x ∈ l, ∀ y ∈ l, (r x y ↔ s x y) := fun x hx y hy =>
      h x (List.mem_cons_of_mem a hx) y (List.mem_cons_of_mem a hy)
    simp only [List.insertionSort]
    rw [ih hl]
    apply orderedInsert_congr
    intro b hb
    exact h a (List.mem_cons_self a l) b
      (List.mem_cons_of_mem a ((List.mem_insertionSort s).mp hb))

theorem arraySort_perm {α : Type} (comparefn : α → α → Option Int) (arr : List α) :
    (arraySort comparefn arr).Perm arr :=
  List.perm_insertionSort _ arr

/-- When the comparator orders the elements of the array as an integer key
does, the sorted array is ordered by that key. -/
theorem arraySort_pairwise_of_key {α : Type} (comparefn : α → α → Option Int) (f : α → Int)
    (arr : List α)
    (h : ∀ a ∈ arr, ∀ b ∈ arr, ((comparefn a b).getD 0 ≤ 0 ↔ f a ≤ f b)) :
    (arraySort comparefn arr).Pairwise (fun a b => f a ≤ f b) := by
  have hcongr : arraySort comparefn arr = arr.insertionSort (fun a b => f a ≤ f b) :=
    insertionSort_congr arr h
  rw [hcongr]
  haveI : IsTotal α (fun a b => f a ≤ f b) := ⟨fun a b => le_total (f a) (f b)⟩
  haveI : IsTrans α (fun a b => f a ≤ f b) := ⟨fun _ _ _ hab hbc => le_trans hab hbc⟩
  exact List.sorted_insertionSort (fun a b => f a ≤ f b) arr

theorem compareFn_score (P : Platform) (dir : Direction) (a b : Customer) :
    compareFn P ⟨"score".toList, dir⟩ a b =
      some (if dir = .asc then a.score - b.score else b.score - a.score) := by
  simp [compareFn, Customer.get]

theorem compareFn_lastMessageAt (P : Platform) (dir : Direction) (a b : Customer) :
    compareFn P ⟨"lastMessageAt".toList, dir⟩ a b =
      if dir = .asc then timeSub (P.dateParse a.lastMessageAt) (P.dateParse b.lastMessageAt)
      else timeSub (P.dateParse b.lastMessageAt) (P.dateParse a.lastMessageAt) := by
  simp [compareFn, Customer.get, newDate]

theorem visibleCustomers_of_nonneg (sorted : List Customer) (n : Nat) :
    visibleCustomers sorted (n : Int) = sorted.take n := by
  simp [visibleCustomers, slice0]

theorem sortedCustomers_score_asc_pairwise (P : Platform) (filtered : List Customer) :
    (sortedCustomers P ⟨"score".toList, .asc⟩ filtered).Pairwise
      (fun a b => a.score ≤ b.score) := by
  apply arraySort_pairwise_of_key (compareFn P ⟨"score".toList, .asc⟩) (fun c => c.score)
  intro a _ b _
  rw [compareFn_score]
  simp

theorem sortedCustomers_score_desc_pairwise (P : Platform) (filtered : List Customer) :
    (sortedCustomers P ⟨"score".toList, .desc⟩ filtered).Pairwise
      (fun a b => b.score ≤ a.score) := by
  have h := arraySort_pairwise_of_key (compareFn P ⟨"score".toList, .desc⟩)
    (fun c => - c.score) filtered (by
      intro a _ b _
      rw [compareFn_score]
      simp)
  exact h.imp (fun hab => by simpa using hab)

/-- The scores 100 down to 1. -/
theorem scores_desc_sorted :
    (((List.range' 1 100).map Int.ofNat).reverse).Pairwise (fun x y => y ≤ x) := by
  rw [List.pairwise_reverse]
  apply List.Pairwise.map Int.ofNat _ (List.pairwise_lt_range' 1 100)
  intro a b hab
  exact Int.ofNat_le.mpr (Nat.le_of_lt hab)

/-- C2: sorting by `score` returns a permutation of its input (so of the same
length; the input list is a value and is not changed), with the scores in
non-decreasing order when the direction is ascending and in non-increasing
order when it is descending; and when the input carries the scores 1..100, once
each, the first 30 rows of the descending sort carry the scores 100 down to 71. -/
theorem sortedCustomers_score_spec (P : Platform) (filtered : List Customer) :
    (sortedCustomers P ⟨"score".toList, .asc⟩ filtered).Perm filtered ∧
    (sortedCustomers P ⟨"score".toList, .desc⟩ filtered).Perm filtered ∧
    (sortedCustomers P ⟨"score".toList, .asc⟩ filtered).length = filtered.length ∧
    (sortedCustomers P ⟨"score".toList, .desc⟩ filtered).length = filtered.length ∧
    (sortedCustomers P ⟨"score".toList, .asc⟩ filtered).Pairwise
      (fun a b => a.score ≤ b.score) ∧
    (sortedCustomers P ⟨"score".toList, .desc⟩ filtered).Pairwise
      (fun a b => a.score ≥ b.score) ∧
    ((filtered.map fun c => c.score).Perm ((List.range' 1 100).map Int.ofNat) →
      (visibleCustomers (sortedCustomers P ⟨"score".toList, .desc⟩ filtered) 30).map
          (fun c => c.score) =
        [100, 99, 98, 97, 96, 95, 94, 93, 92, 91, 90, 89, 88, 87, 86, 85, 84, 83, 82, 81,
         80, 79, 78, 77, 76, 75, 74, 73, 72, 71]) := by
  refine ⟨arraySort_perm _ _, arraySort_perm _ _, (arraySort_perm _ _).length_eq,
    (arraySort_perm _ _).length_eq, sortedCustomers_score_asc_pairwise P filtered,
    sortedCustomers_score_desc_pairwise P filtered, ?_⟩
  intro hscores
  have hperm : ((sortedCustomers P ⟨"score".toList, .desc⟩ filtered).map fun c => c.score).Perm
      (((List.range' 1 100).map Int.ofNat).reverse) :=
    (((arraySort_perm _ filtered).map _).trans hscores).trans (List.reverse_perm _).symm
  have hsorted : ((sortedCustomers P ⟨"score".toList, .desc⟩ filtered).map
      fun c => c.score).Pairwise (fun x y => y ≤ x) :=
    (List.pairwise_map).mpr (sortedCustomers_score_desc_pairwise P filtered)
  haveI : IsAntisymm Int (fun x y => y ≤ x) := ⟨fun _ _ hab hba => le_antisymm hba hab⟩
  have heq := List.eq_of_perm_of_sorted hperm hsorted scores_desc_sorted
  have hvis := visibleCustomers_of_nonneg
    (sortedCustomers P ⟨"score".toList, .desc⟩ filtered) 30
  simp only [Nat.cast_ofNat] at hvis
  rw [hvis, List.map_take, heq]
  decide

theorem sortedCustomers_score_spec_witness :
    ((hundredRecords.map fun c => c.score).Perm ((List.range' 1 100).map Int.ofNat)) ∧
    (visibleCustomers (sortedCustomers refPlatform ⟨"score".toList, .desc⟩ hundredRecords) 30).map
        (fun c => c.score) =
      [100, 99, 98, 97, 96, 95, 94, 93, 92, 91, 90, 89, 88, 87, 86, 85, 84, 83, 82, 81,
       80, 79, 78, 77, 76, 75, 74, 73, 72, 71] :=
  have h : (hundredRecords.map fun c => c.score).Perm ((List.range' 1 100).map Int.ofNat) :=
    List.Perm.of_eq (by rw [hundredRecords, List.map_map]; rfl)
  ⟨h, (sortedCustomers_score_spec refPlatform hundredRecords).2.2.2.2.2.2 h⟩

theorem pair_sublist_of_pairwise_key {α : Type} (f : α → Int) (l : List α)
    (hl : l.Pairwise (fun a b => f a ≤ f b)) (a b : α) (ha : a ∈ l) (hb : b ∈ l)
    (hab : f a < f b) : List.Sublist [a, b] l := by
  induction l with
  | nil => simp at ha
  | cons x l ih =>
    rw [List.pairwise_cons] at hl
    rcases List.mem_cons.mp ha with hax | hal
    · rcases List.mem_cons.mp hb with hbx | hbl
      · rw [hax, hbx] at hab
        exact absurd hab (lt_irrefl _)
      · rw [hax]
        exact List.Sublist.cons₂ x (List.singleton_sublist.mpr hbl)
    · rcases List.mem_cons.mp hb with hbx | hbl
      · have hle := hl.1 a hal
        rw [hbx] at hab
        exact absurd hab (not_lt.mpr hle)
      · exact List.Sublist.cons x (ih hl.2 hal hbl)

theorem sortedCustomers_lastMessageAt_pairwise (P : Platform) (filtered : List Customer)
    (hvalid : ∀ c ∈ filtered, (P.dateParse c.lastMessageAt).isSome = true) :
    (sortedCustomers P ⟨"lastMessageAt".toList, .asc⟩ filtered).Pairwise
      (fun a b => (P.dateParse a.lastMessageAt).getD 0 ≤ (P.dateParse b.lastMessageAt).getD 0) := by
  apply arraySort_pairwise_of_key (compareFn P ⟨"lastMessageAt".toList, .asc⟩)
    (fun c => (P.dateParse c.lastMessageAt).getD 0)
  intro a ha b hb
  obtain ⟨ta, hta⟩ := Option.isSome_iff_exists.mp (hvalid a ha)
  obtain ⟨tb, htb⟩ := Option.isSome_iff_exists.mp (hvalid b hb)
  rw [compareFn_lastMessageAt]
  simp [hta, htb, timeSub]

/-- C4: sorting by `lastMessageAt`, ascending, orders the records by the
instant their text denotes and not by the text: for records whose texts all
parse to a time value, the output is a permutation of the input in which,
whenever the time value of `a` is strictly earlier than that of `b`, `a` stands
before `b` and no `b` stands before an `a`. -/
theorem sortedCustomers_lastMessageAt_chronological (P : Platform) (filtered : List Customer)
    (hvalid : ∀ c ∈ filtered, (P.dateParse c.lastMessageAt).isSome = true) :
    (sortedCustomers P ⟨"lastMessageAt".toList, .asc⟩ filtered).Perm filtered ∧
    ∀ a ∈ filtered, ∀ b ∈ filtered, ∀ ta tb : Int,
      P.dateParse a.lastMessageAt = some ta → P.dateParse b.lastMessageAt = some tb →
      ta < tb →
        List.Sublist [a, b] (sortedCustomers P ⟨"lastMessageAt".toList, .asc⟩ filtered) ∧
        ¬ List.Sublist [b, a] (sortedCustomers P ⟨"lastMessageAt".toList, .asc⟩ filtered) := by
  have hperm : (sortedCustomers P ⟨"lastMessageAt".toList, .asc⟩ filtered).Perm filtered :=
    arraySort_perm _ _
  have hpw := sortedCustomers_lastMessageAt_pairwise P filtered hvalid
  refine ⟨hperm, ?_⟩
  intro a ha b hb ta tb hta htb hlt
  have hkey : (P.dateParse a.lastMessageAt).getD 0 < (P.dateParse b.lastMessageAt).getD 0 := by
    simp [hta, htb, hlt]
  constructor
  · exact pair_sublist_of_pairwise_key
      (fun c => (P.dateParse c.lastMessageAt).getD 0) _ hpw a b
      (hperm.mem_iff.mpr ha) (hperm.mem_iff.mpr hb) hkey
  · intro hsub
    have h2 := hpw.sublist hsub
    rw [List.pairwise_pair] at h2
    exact absurd hkey (not_lt.mpr h2)

theorem sortedCustomers_lastMessageAt_chronological_witness :
    (∀ c ∈ [adaRecord, bobRecord], (refPlatform.dateParse c.lastMessageAt).isSome = true) ∧
    bobRecord.lastMessageAt = "2024-2-1".toList ∧
    adaRecord.lastMessageAt = "2024-10-1".toList ∧
    lexCompare "2024-2-1".toList "2024-10-1".toList = 1 ∧
    List.Sublist [bobRecord, adaRecord]
      (sortedCustomers refPlatform ⟨"lastMessageAt".toList, .asc⟩ [adaRecord, bobRecord]) ∧
    ¬ List.Sublist [adaRecord, bobRecord]
      (sortedCustomers refPlatform ⟨"lastMessageAt".toList, .asc⟩ [adaRecord, bobRecord]) :=
  ⟨by decide, by decide, by decide, by decide,
    (sortedCustomers_lastMessageAt_chronological refPlatform [adaRecord, bobRecord] (by decide)).2
      bobRecord (by decide) adaRecord (by decide) 1706745600000 1727740800000
      (by decide) (by decide) (by decide)⟩

/-! ## Window and sort toggle: theorems -/

theorem matchedCount_eq (P : Platform) (customers : List Customer) (s : AppState) :
    matchedCount P customers s = (filteredCustomers P customers s.searchTerm).length :=
  (arraySort_perm _ _).length_eq

/-- C5: `grow()` sets `visibleCount` to `min(visibleCount + 30, totalMatchedCount)`;
the new value never exceeds `totalMatchedCount`, and from
`visibleCount = totalMatchedCount` any number of further `grow()` calls leaves
it unchanged. -/
theorem loadMore_capped (P : Platform) (customers : List Customer) (s : AppState)
    (total : Nat) (visible : Int) :
    loadMore total visible = min (visible + 30) total ∧
    loadMore total visible ≤ total ∧
    (∀ n : Nat, (loadMore total)^[n] (total : Int) = total) ∧
    (step P customers s .grow).visible = min (s.visible + 30) (matchedCount P customers s) ∧
    (step P customers s .grow).visible ≤ matchedCount P customers s := by
  refine ⟨rfl, min_le_right _ _, ?_, rfl, min_le_right _ _⟩
  intro n
  induction n with
  | zero => rfl
  | succ n ih =>
    rw [Function.iterate_succ_apply]
    have h : loadMore total (total : Int) = total := by
      unfold loadMore
      omega
    rw [h, ih]

/-- C7 (as amended): `handleSort(c)` flips the direction when `c` is the current
sort key and otherwise selects `c` ascending; applied twice to a state whose
key is `c`, it returns that state: the key is `c` and the direction is the one
it started with, ascending from ascending and descending from descending. -/
theorem handleSort_twice (c : JsString) (dir : Direction) :
    handleSort c ⟨c, .asc⟩ = ⟨c, .desc⟩ ∧
    handleSort c ⟨c, .desc⟩ = ⟨c, .asc⟩ ∧
    (∀ k : JsString, k ≠ c → handleSort c ⟨k, dir⟩ = ⟨c, .asc⟩) ∧
    handleSort c (handleSort c ⟨c, dir⟩) = ⟨c, dir⟩ ∧
    handleSort c (handleSort c ⟨c, .asc⟩) = ⟨c, .asc⟩ := by
  refine ⟨by simp [handleSort], by simp [handleSort], ?_, ?_, by simp [handleSort]⟩
  · intro k hk
    simp [handleSort, hk]
  · cases dir <;> simp [handleSort]

theorem handleSort_twice_witness :
    "name".toList ≠ "score".toList ∧
    handleSort "score".toList ⟨"name".toList, .desc⟩ = ⟨"score".toList, .asc⟩ :=
  ⟨by decide,
    (handleSort_twice "score".toList .desc).2.2.1 "name".toList (by decide)⟩

/-- C7 (as stated) fails: from the state with key `name` and direction
descending, two toggles of `name` end in direction descending, not ascending. -/
theorem handleSort_desc_twice_counterexample :
    handleSort "name".toList (handleSort "name".toList ⟨"name".toList, .desc⟩) =
      ⟨"name".toList, .desc⟩ ∧
    (handleSort "name".toList (handleSort "name".toList ⟨"name".toList, .desc⟩)).direction ≠
      .asc := by
  decide

/-! ## Session invariant -/

theorem step_invariant (P : Platform) (customers : List Customer) (s : AppState) (e : Event)
    (h : 0 ≤ s.visible ∧ s.visible ≤ max 30 (matchedCount P customers s)) :
    0 ≤ (step P customers s e).visible ∧
    (step P customers s e).visible ≤ max 30 (matchedCount P customers (step P customers s e)) := by
  cases e with
  | input text =>
    simpa [step, matchedCount] using h
  | commit =>
    simp [step]
  | grow =>
    have hm : matchedCount P customers (step P customers s .grow) = matchedCount P customers s := by
      simp [step, matchedCount]
    rw [hm]
    simp only [step, loadMore]
    omega
  | toggleSort columnKey =>
    have hm : matchedCount P customers (step P customers s (.toggleSort columnKey)) =
        matchedCount P customers s := by
      rw [matchedCount_eq, matchedCount_eq]
      simp [step]
    rw [hm]
    simpa [step] using h

theorem foldl_step_invariant (P : Platform) (customers : List Customer) (events : List Event) :
    ∀ s : AppState, (0 ≤ s.visible ∧ s.visible ≤ max 30 (matchedCount P customers s)) →
      0 ≤ (events.foldl (step P customers) s).visible ∧
      (events.foldl (step P customers) s).visible ≤
        max 30 (matchedCount P customers (events.foldl (step P customers) s)) := by
  induction events with
  | nil => intro s h; exact h
  | cons e events ih =>
    intro s h
    exact ih (step P customers s e) (step_invariant P customers s e h)

theorem slice0_length_le {α : Type} (arr : List α) (e : Int) :
    (slice0 arr e).length ≤ arr.length := by
  unfold slice0
  split <;> simp [List.length_take]

/-- C6 (as amended): in every state reached from the initial state by any
sequence of search edits, search commits, `grow()` calls and sort toggles,
`0 <= visibleCount <= max(30, matched)`, where `matched` is the number of
records matched by the committed search text, and the number of rows rendered
is at most `matched`. -/
theorem run_visible_bounds (P : Platform) (customers : List Customer) (events : List Event) :
    0 ≤ (run P customers events).visible ∧
    (run P customers events).visible ≤
      max 30 (matchedCount P customers (run P customers events)) ∧
    (visibleCustomers
        (sortedCustomers P (run P customers events).sortConfig
          (filteredCustomers P customers (run P customers events).searchTerm))
        (run P customers events).visible).length ≤
      matchedCount P customers (run P customers events) := by
  have h := foldl_step_invariant P customers events AppState.init
    (by simp [AppState.init])
  exact ⟨h.1, h.2, slice0_length_le _ _⟩

/-- C6 (as stated) fails: on a one-record dataset, after the search text
`zzz` is committed no record is matched and `visibleCount` is 30. -/
theorem run_visible_counterexample :
    matchedCount refPlatform [adaRecord]
      (run refPlatform [adaRecord] [.input "zzz".toList, .commit]) = 0 ∧
    (run refPlatform [adaRecord] [.input "zzz".toList, .commit]).visible = 30 ∧
    ¬ ((run refPlatform [adaRecord] [.input "zzz".toList, .commit]).visible ≤
      matchedCount refPlatform [adaRecord]
        (run refPlatform [adaRecord] [.input "zzz".toList, .commit])) := by
  decide

/-! ## Dataset generator: theorems -/

theorem fill_loop (g : Nat → Customer) :
    ∀ (m k : Nat) (filled : List (Option Customer)), filled.length = k →
      (List.range' (k + 1) m).foldl (fun arr id => arr.set (id - 1) (some (g id)))
          (filled ++ List.replicate m none) =
        filled ++ (List.range' (k + 1) m).map (fun id => some (g id)) := by
  intro m
  induction m with
  | zero => intro k filled _; simp
  | succ m ih =>
    intro k filled hk
    have hset : (filled ++ List.replicate (m + 1) none).set (k + 1 - 1) (some (g (k + 1))) =
        (filled ++ [some (g (k + 1))]) ++ List.replicate m none := by
      rw [Nat.add_sub_cancel, ← hk, List.replicate_succ]
      simp
    rw [List.range'_succ, List.foldl_cons, hset, ih (k + 1) (filled ++ [some (g (k + 1))])
      (by simp [hk])]
    simp

theorem generateCustomers_ok (faker : Faker) (count : Int)
    (hlo : 0 ≤ count) (hhi : count < 4294967296) :
    generateCustomers faker count =
      .ok (((List.range' 1 count.toNat).map (mkCustomer faker)).map some) := by
  have h := fill_loop (mkCustomer faker) count.toNat 0 [] rfl
  simp only [List.nil_append, Nat.zero_add] at h
  simp only [generateCustomers, newArray, hlo, hhi, and_self, if_true, h, List.map_map]
  rfl

/-- C8 (as amended): for every integer `N` with `1 <= N <= 2^32 - 1`,
`generateCustomers(N)` returns an array without empty slots of exactly `N`
records in which the record at position `i` (1-based) has `id = i`, so the ids
are exactly 1..N in order and have no duplicate, and every record's avatar URI
ends with the image index `id mod 70`. -/
theorem generateCustomers_ids (faker : Faker) (N : Int)
    (hpos : 1 ≤ N) (hmax : N ≤ 4294967295) :
    ∃ customers : List Customer,
      generateCustomers faker N = .ok (customers.map some) ∧
      (customers.length : Int) = N ∧
      customers.map (fun c => c.id) = List.range' 1 N.toNat ∧
      (customers.map (fun c => c.id)).Nodup ∧
      (∀ (i : Nat) (c : Customer), customers[i]? = some c → c.id = i + 1) ∧
      (∀ c ∈ customers, c.avatar =
        "https://i.pravatar.cc/150?img=".toList ++ (toString (c.id % 70)).toList) := by
  have hids : ((List.range' 1 N.toNat).map (mkCustomer faker)).map (fun c => c.id) =
      List.range' 1 N.toNat := by
    rw [List.map_map]
    exact List.map_id _
  refine ⟨(List.range' 1 N.toNat).map (mkCustomer faker),
    generateCustomers_ok faker N (by omega) (by omega), ?_, hids, ?_, ?_, ?_⟩
  · simp only [List.length_map, List.length_range']
    omega
  · rw [hids]
    exact List.nodup_range' 1 N.toNat
  · intro i c hc
    rw [List.getElem?_map] at hc
    rcases hi : (List.range' 1 N.toNat)[i]? with _ | id
    · simp [hi] at hc
    · rw [hi] at hc
      simp only [Option.map_some', Option.some.injEq] at hc
      rw [List.getElem?_range'] at hi
      · simp only [Option.some.injEq] at hi
        rw [← hc]
        simp only [mkCustomer]
        omega
      · by_contra hlt
        rw [List.getElem?_eq_none (by simpa using hlt)] at hi
        exact absurd hi (by simp)
  · intro c hc
    obtain ⟨id, _, hid⟩ := List.mem_map.mp hc
    rw [← hid]
    rfl

theorem generateCustomers_ids_witness :
    (1 : Int) ≤ 3 ∧ (3 : Int) ≤ 4294967295 ∧
    ∃ customers : List Customer,
      generateCustomers refFaker 3 = .ok (customers.map some) ∧
      (customers.length : Int) = 3 ∧
      customers.map (fun c => c.id) = List.range' 1 (3 : Int).toNat ∧
      (customers.map (fun c => c.id)).Nodup ∧
      (∀ (i : Nat) (c : Customer), customers[i]? = some c → c.id = i + 1) ∧
      (∀ c ∈ customers, c.avatar =
        "https://i.pravatar.cc/150?img=".toList ++ (toString (c.id % 70)).toList) :=
  ⟨by decide, by decide, generateCustomers_ids refFaker 3 (by decide) (by decide)⟩

/-- C8 (as stated) fails: `2^32` is a positive integer, and
`generateCustomers(2^32)` throws the `RangeError` of `new Array(2^32)` and
returns no sequence. -/
theorem generateCustomers_two_pow_32_throws :
    (0 : Int) < 4294967296 ∧
    generateCustomers refFaker 4294967296 = .error .rangeError ∧
    ∀ customers, generateCustomers refFaker 4294967296 ≠ .ok customers := by
  refine ⟨by decide, rfl, ?_⟩
  intro customers h
  have h2 : generateCustomers refFaker 4294967296 = .error .rangeError := rfl
  rw [h2] at h
  exact absurd h (by simp)

/-- C9 (as amended): for every negative integer `count`,
`generateCustomers(count)` throws (the `RangeError` of the array allocation)
and returns no sequence; for `count = 0` it returns the empty sequence; and it
returns a sequence exactly when `0 <= count <= 2^32 - 1`. -/
theorem generateCustomers_count (faker : Faker) (count : Int) :
    (count < 0 → generateCustomers faker count = .error .rangeError) ∧
    generateCustomers faker 0 = .ok [] ∧
    ((∃ customers, generateCustomers faker count = .ok customers) ↔
      (0 ≤ count ∧ count ≤ 4294967295)) := by
  refine ⟨?_, rfl, ?_⟩
  · intro hneg
    have h : ¬ (0 ≤ count ∧ count < 4294967296) := by omega
    simp [generateCustomers, newArray, h]
  · constructor
    · rintro ⟨customers, hok⟩
      by_contra hcon
      have h : ¬ (0 ≤ count ∧ count < 4294967296) := by omega
      simp [generateCustomers, newArray, h] at hok
    · intro hrange
      exact ⟨_, generateCustomers_ok faker count hrange.1 (by omega)⟩

theorem generateCustomers_count_witness :
    ((-5 : Int) < 0) ∧ generateCustomers refFaker (-5) = .error .rangeError :=
  ⟨by decide, (generateCustomers_count refFaker (-5)).1 (by decide)⟩

/-- C9 (as stated) fails at `count = 0`: `generateCustomers(0)` returns the
empty sequence and throws no error. -/
theorem generateCustomers_zero_counterexample :
    (0 : Int) ≤ 0 ∧
    generateCustomers refFaker 0 = .ok [] ∧
    ∀ e, generateCustomers refFaker 0 ≠ .error e := by
  refine ⟨by decide, rfl, ?_⟩
  intro e h
  have h2 : generateCustomers refFaker 0 = .ok [] := rfl
  rw [h2] at h
  exact absurd h (by simp)

/-! ## Auto-fill loop: theorems -/

theorem visibleCustomers_length (sorted : List Customer) (v : Int) (hv : 0 ≤ v) :
    ((visibleCustomers sorted v).length : Int) = min v sorted.length := by
  simp only [visibleCustomers, slice0, not_lt.mpr hv, if_false, List.length_take]
  omega

theorem autoFill_from (layout : Nat → Bool) (sorted : List Customer) :
    ∀ (fuel : Nat) (v : Int) (g : Nat), 0 ≤ v →
      (((sorted.length : Int) - v + 29) / 30).toNat < fuel →
      ∃ (w : Int) (k : Nat), autoFill layout sorted fuel v g = some (w, k) ∧
        k ≤ g + (((sorted.length : Int) - v + 29) / 30).toNat ∧
        ((∀ n, layout n = true) → (visibleCustomers sorted w).length = sorted.length) := by
  intro fuel
  induction fuel with
  | zero => intro v g _ hfuel; omega
  | succ fuel ih =>
    intro v g hv hfuel
    have hlen := visibleCustomers_length sorted v hv
    by_cases hshort : (visibleCustomers sorted v).length < sorted.length
    · cases hlay : layout g with
      | false =>
        refine ⟨v, g, ?_, by omega, ?_⟩
        · simp [autoFill, checkAndLoad, hshort, hlay]
        · intro hall
          rw [hall g] at hlay
          exact absurd hlay (by simp)
      | true =>
        have hvT : v < sorted.length := by omega
        have hnext : loadMore sorted.length v = min (v + 30) sorted.length := rfl
        have hnext0 : 0 ≤ loadMore sorted.length v := by omega
        have hlen2 := visibleCustomers_length sorted (loadMore sorted.length v) hnext0
        have hne : (visibleCustomers sorted (loadMore sorted.length v)).length ≠
            (visibleCustomers sorted v).length := by omega
        have hfuel2 : (((sorted.length : Int) - loadMore sorted.length v + 29) / 30).toNat
            < fuel := by omega
        obtain ⟨w, k, hrun, hk, hfin⟩ := ih (loadMore sorted.length v) (g + 1) hnext0 hfuel2
        refine ⟨w, k, ?_, ?_, hfin⟩
        · simp [autoFill, checkAndLoad, hshort, hlay, hne, hrun]
        · omega
    · refine ⟨v, g, ?_, by omega, ?_⟩
      · simp [autoFill, checkAndLoad, hshort]
      · intro _
        omega

/-- C10: from a starting `visibleCount` `v >= 0` and `T` matched rows, the
auto-fill check-and-grow loop terminates whatever the layout reports: the
rendered window is `min(v, T)` rows, a grow happens only while that is shorter
than `T`, each grow strictly increases `visibleCount`, and with enough fuel the
loop returns after at most `ceil((T - v) / 30)` grows, with the rendered window
equal to `T` when the layout always reports the content shorter than the
viewport. -/
theorem autoFill_terminates (layout : Nat → Bool) (sorted : List Customer) (v : Int)
    (fuel : Nat) (hv : 0 ≤ v)
    (hfuel : (((sorted.length : Int) - v + 29) / 30).toNat < fuel) :
    ((visibleCustomers sorted v).length : Int) = min v sorted.length ∧
    (∀ docShort next, checkAndLoad docShort sorted v = some next →
      (visibleCustomers sorted v).length < sorted.length ∧ v < next) ∧
    ∃ (w : Int) (k : Nat), autoFill layout sorted fuel v 0 = some (w, k) ∧
      k ≤ (((sorted.length : Int) - v + 29) / 30).toNat ∧
      ((∀ n, layout n = true) → (visibleCustomers sorted w).length = sorted.length) := by
  have hlen := visibleCustomers_length sorted v hv
  refine ⟨hlen, ?_, ?_⟩
  · intro docShort next hstep
    by_cases hshort : (visibleCustomers sorted v).length < sorted.length
    · refine ⟨hshort, ?_⟩
      cases docShort with
      | false => simp [checkAndLoad, hshort] at hstep
      | true =>
        simp only [checkAndLoad, hshort, if_true, Option.some.injEq] at hstep
        rw [← hstep]
        unfold loadMore
        omega
    · simp [checkAndLoad, hshort] at hstep
  · obtain ⟨w, k, hrun, hk, hfin⟩ := autoFill_from layout sorted fuel v 0 hv hfuel
    exact ⟨w, k, hrun, by omega, hfin⟩

theorem autoFill_terminates_witness :
    (0 : Int) ≤ 30 ∧
    (((tenRecords.length : Int) - 30 + 29) / 30).toNat < 1 ∧
    autoFill (fun _ : Nat => true) tenRecords 1 30 0 = some (30, 0) ∧
    (visibleCustomers tenRecords 30).length = 10 ∧
    (((visibleCustomers tenRecords 30).length : Int) = min 30 tenRecords.length ∧
    (∀ docShort next, checkAndLoad docShort tenRecords 30 = some next →
      (visibleCustomers tenRecords 30).length < tenRecords.length ∧ 30 < next) ∧
    ∃ (w : Int) (k : Nat), autoFill (fun _ : Nat => true) tenRecords 1 30 0 = some (w, k) ∧
      k ≤ (((tenRecords.length : Int) - 30 + 29) / 30).toNat ∧
      ((∀ n, (fun _ : Nat => true) n = true) →
        (visibleCustomers tenRecords w).length = tenRecords.length)) :=
  ⟨by decide, by decide, by decide, by decide,
    autoFill_terminates (fun _ : Nat => true) tenRecords 30 1 (by decide) (by decide)⟩

end DoubleTick
